import Mathlib

/-!
Verification of the EIP-7702 proof-of-concept repository.

Part 1 embeds the signature-gated `BatchDelegator` contract
(`src/contracts/batchDelegatorWithCallers.sol`) as a state machine:
storage becomes an explicit `State`, the EVM's revert semantics become
an `Except`-valued step plus a commit wrapper that discards all changes
of a reverting invocation, external calls become an injected call
environment over an abstract world type, and ECDSA recovery becomes an
abstract context function over symbolic (collision-free) message hashes.

Part 2 embeds the off-chain authorization hashing of `src/delegate.ts`
(`keccak256(0x05 || RLP([chainId, delegator, nonce]))`) at byte level,
with keccak abstract.
-/

namespace BatchDelegator

/-- A 20-byte account address, modelled as a natural number. -/
abbrev Address := Nat

/-- Solidity sub-call `struct Call { address target; uint256 value; bytes data; }`. -/
structure Call where
  target : Address
  value : Nat
  data : List Nat
  deriving DecidableEq, Repr

/-- Solidity `struct SignedBatch { Call[] calls; uint256 nonce; uint256 deadline; bytes signature; }`. -/
structure SignedBatch where
  calls : List Call
  nonce : Nat
  deadline : Nat
  signature : List Nat
  deriving DecidableEq, Repr

/-- Solidity `struct SignedAdminChange { address newAdmin; uint256 nonce; uint256 deadline; bytes signature; }`. -/
structure SignedAdminChange where
  newAdmin : Address
  nonce : Nat
  deadline : Nat
  signature : List Nat
  deriving DecidableEq, Repr

/-- Solidity `struct SignedCallerUpdate { address[] callers; bool[] isAdding; uint256 nonce; uint256 deadline; bytes signature; }`. -/
structure SignedCallerUpdate where
  callers : List Address
  isAdding : List Bool
  nonce : Nat
  deadline : Nat
  signature : List Nat
  deriving DecidableEq, Repr

/-- The contract's persistent storage:
`address admin; mapping(address => bool) allowedCallers; mapping(uint256 => bool) usedNonces; bool initialized;`. -/
structure State where
  admin : Address
  allowedCallers : Address → Bool
  usedNonces : Nat → Bool
  initialized : Bool

/-- The named revert conditions of the contract.  `CallFailed` and
`CallReturnedFalse` are the two `require` strings in the forwarding loop,
and `DecodeRevert` is the revert raised by `abi.decode(ret, (bool))` on
return data that is not a valid ABI encoding of a boolean. -/
inductive Err
  | DeadlineExpired
  | NonceAlreadyUsed
  | InvalidSignature
  | AlreadyInitialized
  | NotAllowedCaller
  | ArrayLengthMismatch
  | CallFailed
  | CallReturnedFalse
  | DecodeRevert
  deriving DecidableEq, Repr

/-- Symbolic message hashes.  `keccak256(abi.encode(...))` on the three
distinct tuple shapes is modelled as a free constructor per shape, which
is the standard collision-free idealization of the hash. -/
inductive MsgHash
  | batchHash (calls : List Call) (nonce deadline : Nat)
  | adminChangeHash (newAdmin : Address) (nonce deadline : Nat)
  | callerUpdateHash (callers : List Address) (isAdding : List Bool) (nonce deadline : Nat)
  deriving DecidableEq, Repr

/-- Source helper `getBatchHash(calls, nonce, deadline) = keccak256(abi.encode(calls, nonce, deadline))`. -/
def getBatchHash (calls : List Call) (nonce deadline : Nat) : MsgHash :=
  MsgHash.batchHash calls nonce deadline

/-- Source helper `getAdminChangeHash(newAdmin, nonce, deadline) = keccak256(abi.encode(newAdmin, nonce, deadline))`. -/
def getAdminChangeHash (newAdmin : Address) (nonce deadline : Nat) : MsgHash :=
  MsgHash.adminChangeHash newAdmin nonce deadline

/-- Source helper `getCallerUpdateHash(callers, isAdding, nonce, deadline)`. -/
def getCallerUpdateHash (callers : List Address) (isAdding : List Bool)
    (nonce deadline : Nat) : MsgHash :=
  MsgHash.callerUpdateHash callers isAdding nonce deadline

/-- The eth-signed-message wrapping applied by
`MessageHashUtils.toEthSignedMessageHash` before recovery, kept symbolic. -/
inductive EthHash
  | ethSigned (h : MsgHash)
  deriving DecidableEq, Repr

/-- OpenZeppelin `MessageHashUtils.toEthSignedMessageHash(h)`. -/
def toEthSignedMessageHash (h : MsgHash) : EthHash :=
  EthHash.ethSigned h

/-- The blockchain context of one invocation: `block.timestamp` and the
ECDSA recovery function `ECDSA.recover` (an external library primitive,
kept abstract: any function from a wrapped hash and signature bytes to
an address). -/
structure Ctx where
  timestamp : Nat
  recover : EthHash → List Nat → Address

/-- Storage write `usedNonces[n] = true`. -/
def markNonce (s : State) (n : Nat) : State :=
  { s with usedNonces := fun m => if m = n then true else s.usedNonces m }

/-- Storage write `allowedCallers[a] = b`. -/
def setCaller (s : State) (a : Address) (b : Bool) : State :=
  { s with allowedCallers := fun x => if x = a then b else s.allowedCallers x }

/-- The body of the `updateCallers` loop:
`for (i = 0; i < callers.length; i++) allowedCallers[callers[i]] = isAdding[i];`. -/
def applyCallerUpdates (s : State) : List (Address × Bool) → State
  | [] => s
  | (a, b) :: rest => applyCallerUpdates (setCaller s a b) rest

/-- Solidity `function initialize(address _admin)`: reverts with `AlreadyInitialized`
when already initialized, otherwise sets the flag and the admin.
(The source name is a reserved word in Lean, hence `initAdmin`.) -/
def initAdmin (s : State) (a : Address) : Except Err State :=
  if s.initialized then .error .AlreadyInitialized
  else .ok { s with initialized := true, admin := a }

/-- Solidity `function setAdmin(SignedAdminChange calldata signedChange)`:
deadline check, nonce check and marking, signature recovery against the
current admin, then the admin update.  A revert is an `Except.error`. -/
def setAdminE (ctx : Ctx) (s : State) (c : SignedAdminChange) : Except Err State :=
  if ctx.timestamp > c.deadline then .error .DeadlineExpired
  else if s.usedNonces c.nonce then .error .NonceAlreadyUsed
  else if ctx.recover
      (toEthSignedMessageHash (getAdminChangeHash c.newAdmin c.nonce c.deadline))
      c.signature ≠ (markNonce s c.nonce).admin then .error .InvalidSignature
  else .ok { markNonce s c.nonce with admin := c.newAdmin }

/-- Solidity `function updateCallers(SignedCallerUpdate calldata signedUpdate)`:
array-length check, deadline check, nonce check and marking, signature
recovery against the admin, then the caller-update loop. -/
def updateCallersE (ctx : Ctx) (s : State) (u : SignedCallerUpdate) : Except Err State :=
  if u.callers.length ≠ u.isAdding.length then .error .ArrayLengthMismatch
  else if ctx.timestamp > u.deadline then .error .DeadlineExpired
  else if s.usedNonces u.nonce then .error .NonceAlreadyUsed
  else if ctx.recover
      (toEthSignedMessageHash
        (getCallerUpdateHash u.callers u.isAdding u.nonce u.deadline))
      u.signature ≠ (markNonce s u.nonce).admin then .error .InvalidSignature
  else .ok (applyCallerUpdates (markNonce s u.nonce) (u.callers.zip u.isAdding))

/-- Solidity `abi.decode(ret, (bool))`: the generated decoder reverts when the data
is shorter than one word or the word is not 0 or 1; it reads the first
32-byte big-endian word. -/
def decodeBool (ret : List Nat) : Option Bool :=
  if ret.length < 32 then none
  else
    let w := (ret.take 32).foldl (fun acc b => acc * 256 + b) 0
    if w = 0 then some false
    else if w = 1 then some true
    else none

/-- One iteration of the forwarding loop over an abstract world `W` and an
injected call environment `env` (`c.target.call{value: c.value}(c.data)`
returns `none` on low-level failure, or the new world and return data):
`require(ok)`, then for non-empty return data `abi.decode` as a boolean
and `require(success)`. -/
def stepCall {W : Type} (env : W → Call → Option (W × List Nat)) (w : W) (c : Call) :
    Except Err (W × List Nat) :=
  match env w c with
  | none => .error .CallFailed
  | some (w2, ret) =>
    if ret.length = 0 then .ok (w2, ret)
    else
      match decodeBool ret with
      | none => .error .DecodeRevert
      | some false => .error .CallReturnedFalse
      | some true => .ok (w2, ret)

/-- The forwarding loop `for (i = 0; i < n; i++) ...`, threading the world
and accumulating `results[i] = ret`. -/
def runCalls {W : Type} (env : W → Call → Option (W × List Nat)) (w : W) :
    List Call → Except Err (W × List (List Nat))
  | [] => .ok (w, [])
  | c :: rest =>
    match stepCall env w c with
    | .error e => .error e
    | .ok (w2, ret) =>
      match runCalls env w2 rest with
      | .error e => .error e
      | .ok (w3, rs) => .ok (w3, ret :: rs)

/-- Solidity `function executeBatch(SignedBatch calldata signedBatch)` of the
allow-list variant: deadline check, nonce check and marking, signature
recovery, `allowedCallers` membership check, then the forwarding loop. -/
def executeBatchE {W : Type} (ctx : Ctx) (env : W → Call → Option (W × List Nat))
    (w : W) (s : State) (b : SignedBatch) : Except Err (State × W × List (List Nat)) :=
  if ctx.timestamp > b.deadline then .error .DeadlineExpired
  else if s.usedNonces b.nonce then .error .NonceAlreadyUsed
  else if ¬ (markNonce s b.nonce).allowedCallers
      (ctx.recover
        (toEthSignedMessageHash (getBatchHash b.calls b.nonce b.deadline))
        b.signature) then .error .NotAllowedCaller
  else
    match runCalls env w b.calls with
    | .error e => .error e
    | .ok (w2, results) => .ok (markNonce s b.nonce, w2, results)

/-- The EVM commit rule for one `executeBatch` transaction frame: a revert
discards every state change of the invocation, both in contract storage
and in the outside world. -/
def commitBatch {W : Type} (ctx : Ctx) (env : W → Call → Option (W × List Nat))
    (w : W) (s : State) (b : SignedBatch) : State × W :=
  match executeBatchE ctx env w s b with
  | .ok (s2, w2, _) => (s2, w2)
  | .error _ => (s, w)

/-- The four entry points as one request type, for statements about
arbitrary sequences of invocations. -/
inductive Op
  | initOp (a : Address)
  | setAdminOp (c : SignedAdminChange)
  | updateCallersOp (u : SignedCallerUpdate)
  | executeBatchOp (b : SignedBatch)

/-- Dispatch of one invocation. -/
def execOp {W : Type} (ctx : Ctx) (env : W → Call → Option (W × List Nat))
    (sw : State × W) : Op → Except Err (State × W)
  | .initOp a =>
    match initAdmin sw.1 a with
    | .ok s2 => .ok (s2, sw.2)
    | .error e => .error e
  | .setAdminOp c =>
    match setAdminE ctx sw.1 c with
    | .ok s2 => .ok (s2, sw.2)
    | .error e => .error e
  | .updateCallersOp u =>
    match updateCallersE ctx sw.1 u with
    | .ok s2 => .ok (s2, sw.2)
    | .error e => .error e
  | .executeBatchOp b =>
    match executeBatchE ctx env sw.2 sw.1 b with
    | .ok (s2, w2, _) => .ok (s2, w2)
    | .error e => .error e

/-- The EVM commit rule for one invocation: a revert leaves the pre-state. -/
def commitOp {W : Type} (ctx : Ctx) (env : W → Call → Option (W × List Nat))
    (sw : State × W) (op : Op) : State × W :=
  match execOp ctx env sw op with
  | .ok sw2 => sw2
  | .error _ => sw

/-- A sequence of committed invocations (each with its own context). -/
def runOps {W : Type} (env : W → Call → Option (W × List Nat))
    (sw : State × W) : List (Ctx × Op) → State × W
  | [] => sw
  | (ctx, op) :: rest => runOps env (commitOp ctx env sw op) rest

/-- The replay nonce an invocation presents, if any. -/
def Op.nonceOf : Op → Option Nat
  | .initOp _ => none
  | .setAdminOp c => some c.nonce
  | .updateCallersOp u => some u.nonce
  | .executeBatchOp b => some b.nonce

/-- The checks an invocation performs before its nonce check: the deadline
check, and for `updateCallers` also the array-length check. -/
def preNonceOk (ctx : Ctx) : Op → Prop
  | .initOp _ => True
  | .setAdminOp c => ctx.timestamp ≤ c.deadline
  | .updateCallersOp u => u.callers.length = u.isAdding.length ∧ ctx.timestamp ≤ u.deadline
  | .executeBatchOp b => ctx.timestamp ≤ b.deadline

end BatchDelegator

namespace AuthHash

/-- Minimal big-endian byte representation of a natural number: no leading
zero byte, and 0 becomes the empty byte string. -/
def beBytes (n : Nat) : List Nat :=
  if h : n = 0 then []
  else beBytes (n / 256) ++ [n % 256]
termination_by n
decreasing_by exact Nat.div_lt_self (Nat.pos_of_ne_zero h) (by decide)

/-- The big-endian value of a byte string. -/
def beValue (l : List Nat) : Nat :=
  l.foldl (fun acc b => acc * 256 + b) 0

/-- The bytes of ethers' `toBeHex(v)` (no width): minimal big-endian hex,
except that `toBeHex(0)` is the one zero byte `0x00`. -/
def toBeHexBytes (n : Nat) : List Nat :=
  if n = 0 then [0] else beBytes n

/-- An RLP item: a byte string or a nested list of items. -/
inductive RlpItem
  | str (bytes : List Nat)
  | items (xs : List RlpItem)

/-- RLP encoding of a byte string: a single byte below 0x80 stands for
itself; otherwise a length-dependent header precedes the bytes. -/
def strEncode (b : List Nat) : List Nat :=
  match b with
  | [x] => if x < 0x80 then [x] else [0x81, x]
  | _ =>
    if b.length ≤ 55 then (0x80 + b.length) :: b
    else (0xb7 + (beBytes b.length).length) :: (beBytes b.length ++ b)

/-- RLP list header around an already-encoded payload. -/
def listHeader (payload : List Nat) : List Nat :=
  if payload.length ≤ 55 then (0xc0 + payload.length) :: payload
  else (0xf7 + (beBytes payload.length).length) :: (beBytes payload.length ++ payload)

mutual

/-- ethers' `encodeRlp` on one item. -/
def rlpEncode : RlpItem → List Nat
  | .str b => strEncode b
  | .items xs => listHeader (rlpEncodeList xs)

/-- Concatenated encodings of the elements of a list item. -/
def rlpEncodeList : List RlpItem → List Nat
  | [] => []
  | x :: xs => rlpEncode x ++ rlpEncodeList xs

end

/-- The authorization hash preimage built by `src/delegate.ts`:
`concat(['0x05', encodeRlp([chainId ? toBeHex(chainId) : '0x', delegatorAddr, authNonce ? toBeHex(authNonce) : '0x'])])`. -/
def authPreimage (chainId : Nat) (delegatorAddr : List Nat) (authNonce : Nat) : List Nat :=
  0x05 :: rlpEncode (.items
    [ .str (if chainId = 0 then [] else toBeHexBytes chainId),
      .str delegatorAddr,
      .str (if authNonce = 0 then [] else toBeHexBytes authNonce) ])

/-- Function `messageHash` of `src/delegate.ts`, with `keccak256` abstract:
`keccak256(0x05 || RLP([chainId, delegatorAddr, authNonce]))`. -/
def messageHash (keccak : List Nat → List Nat) (chainId : Nat)
    (delegatorAddr : List Nat) (authNonce : Nat) : List Nat :=
  keccak (authPreimage chainId delegatorAddr authNonce)

/-- The preimage as the specification words it, for comparison with the
source-derived `authPreimage`: the raw byte 0x05 concatenated before the
RLP encoding of the three-element list `[encodeInt(chainId),
delegateAddress, encodeInt(nonce)]`, where an integer is encoded as its
minimal big-endian byte string (0 encodes as the empty byte string). -/
def specAuthPreimage (chainId : Nat) (delegateAddress : List Nat) (nonce : Nat) : List Nat :=
  [0x05] ++ rlpEncode (.items
    [ .str (beBytes chainId),
      .str delegateAddress,
      .str (beBytes nonce) ])

/-- The authorization hash preimage built and signed by
`src/delegate_and_execute.ts` (its `rlpEncoded` and `messageHash`, the
value passed to `SigningKey.sign`): the chainId goes through an
unguarded `toBeHex(chainId)`, so chainId 0 becomes the one byte 0x00
rather than the empty byte string; only the nonce keeps the
`authNonce ? toBeHex(authNonce) : '0x'` guard. -/
def authPreimageDAE (chainId : Nat) (delegatorAddr : List Nat) (authNonce : Nat) : List Nat :=
  0x05 :: rlpEncode (.items
    [ .str (toBeHexBytes chainId),
      .str delegatorAddr,
      .str (if authNonce = 0 then [] else toBeHexBytes authNonce) ])

/-- Function `messageHash` of `src/delegate_and_execute.ts` (the hash it
signs), with `keccak256` abstract. -/
def messageHashDAE (keccak : List Nat → List Nat) (chainId : Nat)
    (delegatorAddr : List Nat) (authNonce : Nat) : List Nat :=
  keccak (authPreimageDAE chainId delegatorAddr authNonce)

end AuthHash

namespace SigningSchemes

/-- The 28 header bytes `"\x19Ethereum Signed Message:\n32"` that
`MessageHashUtils.toEthSignedMessageHash` places before a 32-byte digest.
Modelled from the spec: the on-chain verification path "wraps the digest
in a standard signed message" header before recovery (the wrapping
itself lives in the imported OpenZeppelin library, not under `src/`). -/
def ethMsgHeader : List Nat :=
  0x19 :: (("Ethereum Signed Message:" ++ "\n" ++ "32").toList.map Char.toNat)

/-- The byte string actually hashed and recovered against by the on-chain
path, for a 32-byte operation digest `d`: the header followed by `d`. -/
def onchainSignedPayload (d : List Nat) : List Nat :=
  ethMsgHeader ++ d

/-- The digest the off-chain authorization path signs
(`new SigningKey(key).sign(messageHash)` in `src/delegate.ts`): the raw
32-byte digest itself, with no header. -/
def offchainSignedDigest (d : List Nat) : List Nat := d

/-- Modelled from the spec: the ECDSA signer/recoverer component
(`sign(privateKey, digest) -> (r, s, v)`, `recover(digest, signature) ->
address`, implemented by the external ethers/OpenZeppelin libraries, not
under `src/`) as an ideal signature: a signature carries the signing key
and the digest it was produced over, and recovery returns the signer's
address exactly when the presented digest is the signed one. -/
structure IdealSig where
  key : Nat
  digest : List Nat
  deriving DecidableEq, Repr

/-- The address of a private key, an arbitrary injection avoiding 0. -/
def addrOfKey (k : Nat) : Nat := k + 1

/-- Operation `sign(privateKey, digest)` in the ideal model. -/
def idealSign (k : Nat) (d : List Nat) : IdealSig := ⟨k, d⟩

/-- Operation `recover(digest, signature)` in the ideal model: the signer's address
when the digest matches, an unrelated (zero) address otherwise. -/
def idealRecover (d : List Nat) (sig : IdealSig) : Nat :=
  if sig.digest = d then addrOfKey sig.key else 0

end SigningSchemes

/-! ## Helper lemmas -/

namespace AuthHash

theorem beValue_append_byte (l : List Nat) (b : Nat) :
    beValue (l ++ [b]) = beValue l * 256 + b := by
  simp [beValue, List.foldl_append]

theorem beValue_beBytes : ∀ n, beValue (beBytes n) = n := by
  intro n
  induction n using Nat.strong_induction_on with
  | _ n ih =>
    by_cases h : n = 0
    · subst h
      rw [beBytes]
      simp [beValue]
    · rw [beBytes]
      simp only [h, dif_neg, not_false_iff]
      rw [beValue_append_byte,
        ih (n / 256) (Nat.div_lt_self (Nat.pos_of_ne_zero h) (by decide))]
      omega

theorem beBytes_ne_nil (n : Nat) (h : n ≠ 0) : beBytes n ≠ [] := by
  rw [beBytes]
  simp [h]

theorem beBytes_head_ne_zero : ∀ n x xs, beBytes n = x :: xs → x ≠ 0 := by
  intro n
  induction n using Nat.strong_induction_on with
  | _ n ih =>
    intro x xs hx
    by_cases h : n = 0
    · subst h
      rw [beBytes] at hx
      simp at hx
    · rw [beBytes] at hx
      simp only [h, dif_neg, not_false_iff] at hx
      by_cases hq : n / 256 = 0
      · rw [beBytes] at hx
        simp only [hq, dif_pos, List.nil_append, List.cons.injEq] at hx
        have hlt : n < 256 := by omega
        have hx1 := hx.1
        omega
      · rcases hl : beBytes (n / 256) with _ | ⟨y, ys⟩
        · exact absurd hl (beBytes_ne_nil _ hq)
        · rw [hl] at hx
          simp only [List.cons_append, List.cons.injEq] at hx
          have := ih (n / 256) (Nat.div_lt_self (Nat.pos_of_ne_zero h) (by decide)) y ys hl
          omega

end AuthHash

namespace BatchDelegator

theorem markNonce_usedNonces_self (s : State) (n : Nat) :
    (markNonce s n).usedNonces n = true := by
  simp [markNonce]

theorem markNonce_usedNonces_mono (s : State) (n m : Nat)
    (h : s.usedNonces m = true) : (markNonce s n).usedNonces m = true := by
  simp only [markNonce]
  by_cases hm : m = n <;> simp [hm, h]

theorem markNonce_admin (s : State) (n : Nat) : (markNonce s n).admin = s.admin := rfl

theorem markNonce_allowedCallers (s : State) (n : Nat) :
    (markNonce s n).allowedCallers = s.allowedCallers := rfl

theorem markNonce_initialized (s : State) (n : Nat) :
    (markNonce s n).initialized = s.initialized := rfl

theorem applyCallerUpdates_usedNonces (l : List (Address × Bool)) :
    ∀ s : State, (applyCallerUpdates s l).usedNonces = s.usedNonces := by
  induction l with
  | nil => intro s; rfl
  | cons p rest ih =>
    intro s
    cases p with
    | mk a b => simpa [applyCallerUpdates] using ih (setCaller s a b)

theorem applyCallerUpdates_admin (l : List (Address × Bool)) :
    ∀ s : State, (applyCallerUpdates s l).admin = s.admin := by
  induction l with
  | nil => intro s; rfl
  | cons p rest ih =>
    intro s
    cases p with
    | mk a b => simpa [applyCallerUpdates] using ih (setCaller s a b)

theorem applyCallerUpdates_initialized (l : List (Address × Bool)) :
    ∀ s : State, (applyCallerUpdates s l).initialized = s.initialized := by
  induction l with
  | nil => intro s; rfl
  | cons p rest ih =>
    intro s
    cases p with
    | mk a b => simpa [applyCallerUpdates] using ih (setCaller s a b)

theorem stepCall_error_cases {W : Type} (env : W → Call → Option (W × List Nat))
    (w : W) (c : Call) (e : Err) (h : stepCall env w c = .error e) :
    e = .CallFailed ∨ e = .DecodeRevert ∨ e = .CallReturnedFalse := by
  unfold stepCall at h
  rcases henv : env w c with _ | ⟨w2, ret⟩ <;> rw [henv] at h
  · exact Or.inl (Except.error.inj h).symm
  · by_cases hlen : ret.length = 0
    · simp [hlen] at h
    · simp only [hlen, if_neg, if_false] at h
      rcases hdec : decodeBool ret with _ | b <;> rw [hdec] at h
      · exact Or.inr (Or.inl (Except.error.inj h).symm)
      · cases b
        · exact Or.inr (Or.inr (Except.error.inj h).symm)
        · simp at h

theorem runCalls_error_cases {W : Type} (env : W → Call → Option (W × List Nat)) :
    ∀ (calls : List Call) (w : W) (e : Err), runCalls env w calls = .error e →
      e = .CallFailed ∨ e = .DecodeRevert ∨ e = .CallReturnedFalse := by
  intro calls
  induction calls with
  | nil => intro w e h; simp [runCalls] at h
  | cons c rest ih =>
    intro w e h
    unfold runCalls at h
    split at h
    next e2 hs =>
      exact (Except.error.inj h) ▸ stepCall_error_cases env w c e2 hs
    next w2 ret hs =>
      split at h
      next e3 hr =>
        exact (Except.error.inj h) ▸ ih w2 e3 hr
      next w3 rs hr => simp at h

theorem runCalls_take_error {W : Type} (env : W → Call → Option (W × List Nat)) :
    ∀ (calls : List Call) (w : W) (i : Nat) (hi : i < calls.length)
      (wi : W) (rs : List (List Nat)) (e : Err),
      runCalls env w (calls.take i) = .ok (wi, rs) →
      stepCall env wi (calls.get ⟨i, hi⟩) = .error e →
      runCalls env w calls = .error e := by
  intro calls
  induction calls with
  | nil => intro w i hi; exact absurd hi (by simp)
  | cons c rest ih =>
    intro w i hi wi rs e hpre hstep
    cases i with
    | zero =>
      simp only [List.take_zero, runCalls, Except.ok.injEq, Prod.mk.injEq] at hpre
      have hw : wi = w := hpre.1.symm
      subst hw
      simp only [List.get] at hstep
      simp only [runCalls, hstep]
    | succ j =>
      simp only [List.take_succ_cons] at hpre
      unfold runCalls at hpre
      split at hpre
      next e2 hs => simp at hpre
      next w2 ret hs =>
        split at hpre
        next e3 hr => simp at hpre
        next w3 rs3 hr =>
          simp only [Except.ok.injEq, Prod.mk.injEq] at hpre
          obtain ⟨hw, hrs⟩ := hpre
          subst hw
          have hj : j < rest.length := Nat.lt_of_succ_lt_succ (by simpa using hi)
          have hrec := ih w2 j hj w3 rs3 e hr (by simpa using hstep)
          simp only [runCalls, hs, hrec]

end BatchDelegator

namespace BatchDelegator

theorem initAdmin_ok_char (s : State) (a : Address) (s2 : State)
    (h : initAdmin s a = .ok s2) :
    s.initialized = false ∧ s2 = { s with initialized := true, admin := a } := by
  unfold initAdmin at h
  split at h
  · simp at h
  · next hinit =>
    exact ⟨by simpa using hinit, (Except.ok.inj h).symm⟩

theorem setAdminE_ok_char (ctx : Ctx) (s : State) (c : SignedAdminChange) (s2 : State)
    (h : setAdminE ctx s c = .ok s2) :
    s2 = { markNonce s c.nonce with admin := c.newAdmin } := by
  unfold setAdminE at h
  split at h
  · simp at h
  · split at h
    · simp at h
    · split at h
      · simp at h
      · exact (Except.ok.inj h).symm

theorem updateCallersE_ok_char (ctx : Ctx) (s : State) (u : SignedCallerUpdate) (s2 : State)
    (h : updateCallersE ctx s u = .ok s2) :
    s2 = applyCallerUpdates (markNonce s u.nonce) (u.callers.zip u.isAdding) := by
  unfold updateCallersE at h
  split at h
  · simp at h
  · split at h
    · simp at h
    · split at h
      · simp at h
      · split at h
        · simp at h
        · exact (Except.ok.inj h).symm

theorem executeBatchE_ok_char {W : Type} (ctx : Ctx) (env : W → Call → Option (W × List Nat))
    (w : W) (s : State) (b : SignedBatch) (s2 : State) (w2 : W) (rs : List (List Nat))
    (h : executeBatchE ctx env w s b = .ok (s2, w2, rs)) :
    s2 = markNonce s b.nonce ∧ runCalls env w b.calls = .ok (w2, rs) := by
  unfold executeBatchE at h
  split at h
  · simp at h
  · split at h
    · simp at h
    · split at h
      · simp at h
      · split at h
        · next e hrun => simp at h
        · next w3 rs3 hrun =>
          obtain ⟨h1, h2, h3⟩ : markNonce s b.nonce = s2 ∧ w3 = w2 ∧ rs3 = rs := by
            simpa [Prod.ext_iff] using Except.ok.inj h
          exact ⟨h1.symm, by rw [hrun, h2, h3]⟩

theorem execOp_ok_marks {W : Type} (ctx : Ctx) (env : W → Call → Option (W × List Nat))
    (sw sw2 : State × W) (op : Op) (n : Nat)
    (hok : execOp ctx env sw op = .ok sw2) (hn : op.nonceOf = some n) :
    sw2.1.usedNonces n = true := by
  cases op with
  | initOp a => simp [Op.nonceOf] at hn
  | setAdminOp c =>
    have hn2 : c.nonce = n := by simpa [Op.nonceOf] using hn
    subst hn2
    simp only [execOp] at hok
    split at hok
    next s2 hs =>
      have hchar := setAdminE_ok_char ctx sw.1 c s2 hs
      have h1 : sw2 = (s2, sw.2) := (Except.ok.inj hok).symm
      rw [h1, hchar]
      exact markNonce_usedNonces_self _ _
    next e hs => simp at hok
  | updateCallersOp u =>
    have hn2 : u.nonce = n := by simpa [Op.nonceOf] using hn
    subst hn2
    simp only [execOp] at hok
    split at hok
    next s2 hs =>
      have hchar := updateCallersE_ok_char ctx sw.1 u s2 hs
      have h1 : sw2 = (s2, sw.2) := (Except.ok.inj hok).symm
      rw [h1, hchar]
      show (applyCallerUpdates (markNonce sw.1 u.nonce) (u.callers.zip u.isAdding)).usedNonces u.nonce = true
      rw [applyCallerUpdates_usedNonces]
      exact markNonce_usedNonces_self _ _
    next e hs => simp at hok
  | executeBatchOp b =>
    have hn2 : b.nonce = n := by simpa [Op.nonceOf] using hn
    subst hn2
    simp only [execOp] at hok
    split at hok
    next s2 w2 rs hs =>
      have hchar := executeBatchE_ok_char ctx env sw.2 sw.1 b s2 w2 rs hs
      have h1 : sw2 = (s2, w2) := (Except.ok.inj hok).symm
      rw [h1, hchar.1]
      exact markNonce_usedNonces_self _ _
    next e hs => simp at hok

theorem execOp_used_rejects {W : Type} (ctx : Ctx) (env : W → Call → Option (W × List Nat))
    (sw : State × W) (op : Op) (n : Nat)
    (hn : op.nonceOf = some n) (hused : sw.1.usedNonces n = true)
    (hpre : preNonceOk ctx op) :
    execOp ctx env sw op = .error .NonceAlreadyUsed := by
  cases op with
  | initOp a => simp [Op.nonceOf] at hn
  | setAdminOp c =>
    have hn2 : c.nonce = n := by simpa [Op.nonceOf] using hn
    subst hn2
    have hd : ¬ ctx.timestamp > c.deadline := by
      simpa [preNonceOk, Nat.not_lt] using hpre
    simp [execOp, setAdminE, hd, hused]
  | updateCallersOp u =>
    have hn2 : u.nonce = n := by simpa [Op.nonceOf] using hn
    subst hn2
    obtain ⟨hlen, hd⟩ : u.callers.length = u.isAdding.length ∧ ctx.timestamp ≤ u.deadline := hpre
    simp [execOp, updateCallersE, hlen, Nat.not_lt.mpr hd, hused]
  | executeBatchOp b =>
    have hn2 : b.nonce = n := by simpa [Op.nonceOf] using hn
    subst hn2
    have hd : ¬ ctx.timestamp > b.deadline := by
      simpa [preNonceOk, Nat.not_lt] using hpre
    simp [execOp, executeBatchE, hd, hused]

end BatchDelegator

namespace BatchDelegator

theorem execOp_preserves_initialized {W : Type} (ctx : Ctx)
    (env : W → Call → Option (W × List Nat)) (sw sw2 : State × W) (op : Op)
    (hok : execOp ctx env sw op = .ok sw2) (h : sw.1.initialized = true) :
    sw2.1.initialized = true := by
  cases op with
  | initOp a =>
    simp only [execOp] at hok
    split at hok
    next s2 hs =>
      have := (initAdmin_ok_char sw.1 a s2 hs).1
      rw [h] at this
      simp at this
    next e hs => simp at hok
  | setAdminOp c =>
    simp only [execOp] at hok
    split at hok
    next s2 hs =>
      have hchar := setAdminE_ok_char ctx sw.1 c s2 hs
      have h1 : sw2 = (s2, sw.2) := (Except.ok.inj hok).symm
      rw [h1, hchar]
      exact h
    next e hs => simp at hok
  | updateCallersOp u =>
    simp only [execOp] at hok
    split at hok
    next s2 hs =>
      have hchar := updateCallersE_ok_char ctx sw.1 u s2 hs
      have h1 : sw2 = (s2, sw.2) := (Except.ok.inj hok).symm
      rw [h1, hchar]
      show (applyCallerUpdates (markNonce sw.1 u.nonce) (u.callers.zip u.isAdding)).initialized = true
      rw [applyCallerUpdates_initialized]
      exact h
    next e hs => simp at hok
  | executeBatchOp b =>
    simp only [execOp] at hok
    split at hok
    next s2 w2 rs hs =>
      have hchar := executeBatchE_ok_char ctx env sw.2 sw.1 b s2 w2 rs hs
      have h1 : sw2 = (s2, w2) := (Except.ok.inj hok).symm
      rw [h1, hchar.1]
      exact h
    next e hs => simp at hok

theorem execOp_preserves_usedNonces {W : Type} (ctx : Ctx)
    (env : W → Call → Option (W × List Nat)) (sw sw2 : State × W) (op : Op) (m : Nat)
    (hok : execOp ctx env sw op = .ok sw2) (h : sw.1.usedNonces m = true) :
    sw2.1.usedNonces m = true := by
  cases op with
  | initOp a =>
    simp only [execOp] at hok
    split at hok
    next s2 hs =>
      have hchar := (initAdmin_ok_char sw.1 a s2 hs).2
      have h1 : sw2 = (s2, sw.2) := (Except.ok.inj hok).symm
      rw [h1, hchar]
      exact h
    next e hs => simp at hok
  | setAdminOp c =>
    simp only [execOp] at hok
    split at hok
    next s2 hs =>
      have hchar := setAdminE_ok_char ctx sw.1 c s2 hs
      have h1 : sw2 = (s2, sw.2) := (Except.ok.inj hok).symm
      rw [h1, hchar]
      exact markNonce_usedNonces_mono _ _ _ h
    next e hs => simp at hok
  | updateCallersOp u =>
    simp only [execOp] at hok
    split at hok
    next s2 hs =>
      have hchar := updateCallersE_ok_char ctx sw.1 u s2 hs
      have h1 : sw2 = (s2, sw.2) := (Except.ok.inj hok).symm
      rw [h1, hchar]
      show (applyCallerUpdates (markNonce sw.1 u.nonce) (u.callers.zip u.isAdding)).usedNonces m = true
      rw [applyCallerUpdates_usedNonces]
      exact markNonce_usedNonces_mono _ _ _ h
    next e hs => simp at hok
  | executeBatchOp b =>
    simp only [execOp] at hok
    split at hok
    next s2 w2 rs hs =>
      have hchar := executeBatchE_ok_char ctx env sw.2 sw.1 b s2 w2 rs hs
      have h1 : sw2 = (s2, w2) := (Except.ok.inj hok).symm
      rw [h1, hchar.1]
      exact markNonce_usedNonces_mono _ _ _ h
    next e hs => simp at hok

theorem commitOp_preserves_initialized {W : Type} (ctx : Ctx)
    (env : W → Call → Option (W × List Nat)) (sw : State × W) (op : Op)
    (h : sw.1.initialized = true) :
    (commitOp ctx env sw op).1.initialized = true := by
  unfold commitOp
  split
  next sw2 hok => exact execOp_preserves_initialized ctx env sw sw2 op hok h
  next e hok => exact h

theorem commitOp_preserves_usedNonces {W : Type} (ctx : Ctx)
    (env : W → Call → Option (W × List Nat)) (sw : State × W) (op : Op) (m : Nat)
    (h : sw.1.usedNonces m = true) :
    (commitOp ctx env sw op).1.usedNonces m = true := by
  unfold commitOp
  split
  next sw2 hok => exact execOp_preserves_usedNonces ctx env sw sw2 op m hok h
  next e hok => exact h

theorem runOps_preserves_initialized {W : Type} (env : W → Call → Option (W × List Nat)) :
    ∀ (ops : List (Ctx × Op)) (sw : State × W), sw.1.initialized = true →
      (runOps env sw ops).1.initialized = true := by
  intro ops
  induction ops with
  | nil => intro sw h; exact h
  | cons p rest ih =>
    intro sw h
    cases p with
    | mk ctx op =>
      exact ih (commitOp ctx env sw op) (commitOp_preserves_initialized ctx env sw op h)

theorem runOps_preserves_usedNonces {W : Type} (env : W → Call → Option (W × List Nat)) :
    ∀ (ops : List (Ctx × Op)) (sw : State × W) (m : Nat), sw.1.usedNonces m = true →
      (runOps env sw ops).1.usedNonces m = true := by
  intro ops
  induction ops with
  | nil => intro sw m h; exact h
  | cons p rest ih =>
    intro sw m h
    cases p with
    | mk ctx op =>
      exact ih (commitOp ctx env sw op) m (commitOp_preserves_usedNonces ctx env sw op m h)

end BatchDelegator

namespace AuthHash

theorem beBytes_zero : beBytes 0 = [] := by
  rw [beBytes]
  simp

theorem guardedToBeHex_eq_beBytes (n : Nat) :
    (if n = 0 then [] else toBeHexBytes n) = beBytes n := by
  by_cases h : n = 0
  · simp [h, beBytes_zero]
  · simp [h, toBeHexBytes]

end AuthHash

namespace SigningSchemes

theorem ethMsgHeader_length : ethMsgHeader.length = 28 := by rfl

end SigningSchemes

/-! ## Claim theorems -/

open BatchDelegator AuthHash SigningSchemes

/-- C4 is false on the construction that `src/delegate_and_execute.ts`
actually signs: its `rlpEncoded` uses an unguarded `toBeHex(chainId)`,
so at chainId = 0 the preimage carries the one byte 0x00 where the claim
requires the empty byte string, and the preimage (hence, shown here for
a concretely instantiated keccak, the hash) differs from the claimed
canonical one at a concrete 20-byte address and nonce 0. -/
theorem C4_counterexample :
    authPreimageDAE 0 (List.replicate 20 0xaa) 0
      ≠ specAuthPreimage 0 (List.replicate 20 0xaa) 0 ∧
    messageHashDAE (fun l => l) 0 (List.replicate 20 0xaa) 0
      ≠ (fun l => l) (specAuthPreimage 0 (List.replicate 20 0xaa) 0) := by
  have h : authPreimageDAE 0 (List.replicate 20 0xaa) 0
      ≠ specAuthPreimage 0 (List.replicate 20 0xaa) 0 := by
    simp [authPreimageDAE, specAuthPreimage, toBeHexBytes, beBytes_zero,
      rlpEncode, rlpEncodeList, strEncode, listHeader, List.replicate]
  exact ⟨h, h⟩

/-- C4 (amended): the guarded construction of `src/delegate.ts` equals
keccak256 of the raw byte 0x05 concatenated before (outside) the RLP
encoding of the three-element list `[encodeInt(chainId),
delegateAddress, encodeInt(nonce)]` for every chainId, 20-byte
delegateAddress and nonce, where an integer is encoded as its minimal
big-endian byte string with no leading zero byte and 0 encodes as the
empty byte string; the unguarded construction signed by
`src/delegate_and_execute.ts` equals the same canonical hash for every
NONZERO chainId, while at chainId = 0 its preimage instead carries the
explicit byte 0x00 as the first list element. -/
theorem C4_amended_authorization_hash (keccak : List Nat → List Nat)
    (chainId : Nat) (delegateAddress : List Nat) (nonce : Nat)
    (h20 : delegateAddress.length = 20) :
    messageHash keccak chainId delegateAddress nonce
      = keccak (specAuthPreimage chainId delegateAddress nonce) ∧
    (chainId ≠ 0 →
      messageHashDAE keccak chainId delegateAddress nonce
        = keccak (specAuthPreimage chainId delegateAddress nonce)) ∧
    (chainId = 0 →
      authPreimageDAE chainId delegateAddress nonce
        = 0x05 :: rlpEncode (.items
            [ .str [0], .str delegateAddress, .str (beBytes nonce) ])) ∧
    beValue (beBytes chainId) = chainId ∧
    beValue (beBytes nonce) = nonce ∧
    (∀ x xs, beBytes chainId = x :: xs → x ≠ 0) ∧
    (∀ x xs, beBytes nonce = x :: xs → x ≠ 0) ∧
    beBytes 0 = ([] : List Nat) := by
  refine ⟨?_, ?_, ?_, beValue_beBytes chainId, beValue_beBytes nonce,
    beBytes_head_ne_zero chainId, beBytes_head_ne_zero nonce, beBytes_zero⟩
  · unfold messageHash authPreimage specAuthPreimage
    rw [guardedToBeHex_eq_beBytes, guardedToBeHex_eq_beBytes]
    rfl
  · intro hne
    unfold messageHashDAE authPreimageDAE specAuthPreimage
    rw [guardedToBeHex_eq_beBytes]
    unfold toBeHexBytes
    rw [if_neg hne]
    rfl
  · intro h0
    subst h0
    unfold authPreimageDAE
    rw [guardedToBeHex_eq_beBytes]
    rfl

/-- Witness for the amended C4 at the end-to-end example inputs:
Sepolia's nonzero chain id, a concrete 20-byte address, nonce 0, and a
concretely instantiated keccak; both source constructions match the
canonical preimage there. -/
theorem C4_amended_witness :
    (List.replicate 20 0xaa).length = 20 ∧
    messageHash (fun l => 0 :: l) 11155111 (List.replicate 20 0xaa) 0
      = (fun l => 0 :: l) (specAuthPreimage 11155111 (List.replicate 20 0xaa) 0) ∧
    messageHashDAE (fun l => 0 :: l) 11155111 (List.replicate 20 0xaa) 0
      = (fun l => 0 :: l) (specAuthPreimage 11155111 (List.replicate 20 0xaa) 0) := by
  have h := C4_amended_authorization_hash (fun l => 0 :: l) 11155111
    (List.replicate 20 0xaa) 0 (by simp)
  exact ⟨by simp, h.1, h.2.1 (by decide)⟩

/-- C5: for each of executeBatch, setAdmin and updateCallers, an
invocation whose deadline equals the current `block.timestamp` passes
the deadline check (it does not fail with DeadlineExpired), while an
invocation whose deadline equals the current time minus one fails with
DeadlineExpired. -/
theorem C5_deadline_boundary (ctx : Ctx) (s : State) :
    (∀ c : SignedAdminChange, c.deadline = ctx.timestamp →
      setAdminE ctx s c ≠ .error .DeadlineExpired) ∧
    (∀ c : SignedAdminChange, 1 ≤ ctx.timestamp → c.deadline = ctx.timestamp - 1 →
      setAdminE ctx s c = .error .DeadlineExpired) ∧
    (∀ u : SignedCallerUpdate, u.deadline = ctx.timestamp →
      updateCallersE ctx s u ≠ .error .DeadlineExpired) ∧
    (∀ u : SignedCallerUpdate, u.callers.length = u.isAdding.length →
      1 ≤ ctx.timestamp → u.deadline = ctx.timestamp - 1 →
      updateCallersE ctx s u = .error .DeadlineExpired) ∧
    (∀ (W : Type) (env : W → Call → Option (W × List Nat)) (w : W) (b : SignedBatch),
      b.deadline = ctx.timestamp →
      executeBatchE ctx env w s b ≠ .error .DeadlineExpired) ∧
    (∀ (W : Type) (env : W → Call → Option (W × List Nat)) (w : W) (b : SignedBatch),
      1 ≤ ctx.timestamp → b.deadline = ctx.timestamp - 1 →
      executeBatchE ctx env w s b = .error .DeadlineExpired) := by
  refine ⟨?_, ?_, ?_, ?_, ?_, ?_⟩
  · intro c hdl
    have hd : ¬ ctx.timestamp > c.deadline := by omega
    unfold setAdminE
    simp only [hd, if_false]
    split
    · simp
    · split <;> simp
  · intro c ht hdl
    have hd : ctx.timestamp > c.deadline := by omega
    simp [setAdminE, hd]
  · intro u hdl
    have hd : ¬ ctx.timestamp > u.deadline := by omega
    unfold updateCallersE
    split
    · simp
    · split
      · simp
      · split <;> simp
  · intro u hlen ht hdl
    have hd : ctx.timestamp > u.deadline := by omega
    simp [updateCallersE, hlen, hd]
  · intro W env w b hdl
    have hd : ¬ ctx.timestamp > b.deadline := by omega
    unfold executeBatchE
    simp only [hd, if_false]
    split
    · simp
    · split
      · simp
      · split
        next e hrun =>
          intro hcontra
          have he : e = Err.DeadlineExpired := Except.error.inj hcontra
          rcases runCalls_error_cases env b.calls w e hrun with h | h | h <;>
            (rw [he] at h; exact absurd h (by simp))
        next w2 rs hrun => simp
  · intro W env w b ht hdl
    have hd : ctx.timestamp > b.deadline := by omega
    simp [executeBatchE, hd]

/-- Witness for C5: at timestamp 5, a deadline of 5 does not raise
DeadlineExpired and a deadline of 4 does, for all three operations. -/
theorem C5_witness :
    (setAdminE ⟨5, fun _ _ => 0⟩ ⟨0, fun _ => false, fun _ => false, true⟩ ⟨9, 0, 5, []⟩
      ≠ .error .DeadlineExpired) ∧
    (setAdminE ⟨5, fun _ _ => 0⟩ ⟨0, fun _ => false, fun _ => false, true⟩ ⟨9, 1, 4, []⟩
      = .error .DeadlineExpired) ∧
    (updateCallersE ⟨5, fun _ _ => 0⟩ ⟨0, fun _ => false, fun _ => false, true⟩ ⟨[7], [true], 2, 5, []⟩
      ≠ .error .DeadlineExpired) ∧
    (updateCallersE ⟨5, fun _ _ => 0⟩ ⟨0, fun _ => false, fun _ => false, true⟩ ⟨[7], [true], 3, 4, []⟩
      = .error .DeadlineExpired) ∧
    (executeBatchE ⟨5, fun _ _ => 0⟩ (fun (w : Nat) _ => some (w, [])) 0
      ⟨0, fun _ => false, fun _ => false, true⟩ ⟨[], 4, 5, []⟩ ≠ .error .DeadlineExpired) ∧
    (executeBatchE ⟨5, fun _ _ => 0⟩ (fun (w : Nat) _ => some (w, [])) 0
      ⟨0, fun _ => false, fun _ => false, true⟩ ⟨[], 5, 4, []⟩ = .error .DeadlineExpired) := by
  have h := C5_deadline_boundary ⟨5, fun _ _ => 0⟩ ⟨0, fun _ => false, fun _ => false, true⟩
  exact ⟨h.1 ⟨9, 0, 5, []⟩ rfl,
    h.2.1 ⟨9, 1, 4, []⟩ (by decide) rfl,
    h.2.2.1 ⟨[7], [true], 2, 5, []⟩ rfl,
    h.2.2.2.1 ⟨[7], [true], 3, 4, []⟩ rfl (by decide) rfl,
    h.2.2.2.2.1 Nat (fun w _ => some (w, [])) 0 ⟨[], 4, 5, []⟩ rfl,
    h.2.2.2.2.2 Nat (fun w _ => some (w, [])) 0 ⟨[], 5, 4, []⟩ (by decide) rfl⟩

/-- C8: the off-chain authorization path signs the raw 32-byte digest
directly while the on-chain verification path recovers against the
keccak hash of the header-wrapped digest; the two hash preimages always
differ, a signature made under either scheme verifies under its own
scheme, and — except when the two preimages coincide under keccak — a
signature made under one scheme does not verify under the other. -/
theorem C8_two_signing_schemes (keccak : List Nat → List Nat) (k : Nat)
    (d : List Nat) (h32 : d.length = 32) :
    onchainSignedPayload d ≠ offchainSignedDigest d ∧
    idealRecover (offchainSignedDigest d) (idealSign k (offchainSignedDigest d))
      = addrOfKey k ∧
    idealRecover (keccak (onchainSignedPayload d))
      (idealSign k (keccak (onchainSignedPayload d))) = addrOfKey k ∧
    (keccak (onchainSignedPayload d) ≠ d →
      idealRecover (keccak (onchainSignedPayload d))
        (idealSign k (offchainSignedDigest d)) ≠ addrOfKey k ∧
      idealRecover (offchainSignedDigest d)
        (idealSign k (keccak (onchainSignedPayload d))) ≠ addrOfKey k) := by
  refine ⟨?_, ?_, ?_, ?_⟩
  · intro h
    have hl := congrArg List.length h
    rw [onchainSignedPayload, List.length_append, ethMsgHeader_length] at hl
    simp [offchainSignedDigest] at hl
  · simp [idealRecover, idealSign, offchainSignedDigest]
  · simp [idealRecover, idealSign]
  · intro hne
    constructor
    · have hc : ¬ ((idealSign k (offchainSignedDigest d)).digest
          = keccak (onchainSignedPayload d)) := by
        simp only [idealSign, offchainSignedDigest]
        exact fun hcontra => hne hcontra.symm
      simp only [idealRecover, if_neg hc, addrOfKey]
      omega
    · have hc : ¬ ((idealSign k (keccak (onchainSignedPayload d))).digest
          = offchainSignedDigest d) := by
        simp only [idealSign, offchainSignedDigest]
        exact hne
      simp only [idealRecover, if_neg hc, addrOfKey]
      omega

/-- Witness for C8 at a concrete digest (32 one-bytes), key 3 and a
concrete keccak model under which the two preimages do not collide. -/
theorem C8_witness :
    (List.replicate 32 1).length = 32 ∧
    ((fun l => List.take 32 l) (onchainSignedPayload (List.replicate 32 1))
        ≠ List.replicate 32 1 →
      idealRecover ((fun l => List.take 32 l) (onchainSignedPayload (List.replicate 32 1)))
        (idealSign 3 (offchainSignedDigest (List.replicate 32 1))) ≠ addrOfKey 3 ∧
      idealRecover (offchainSignedDigest (List.replicate 32 1))
        (idealSign 3 ((fun l => List.take 32 l) (onchainSignedPayload (List.replicate 32 1))))
        ≠ addrOfKey 3) :=
  ⟨by simp,
   (C8_two_signing_schemes (fun l => List.take 32 l) 3 (List.replicate 32 1) (by simp)).2.2.2⟩

namespace BatchDelegator

theorem executeBatch_abort_of_stepFail {W : Type} (ctx : Ctx)
    (env : W → Call → Option (W × List Nat)) (w : W) (s : State) (b : SignedBatch)
    (i : Nat) (hi : i < b.calls.length) (wi : W) (rs : List (List Nat)) (e : Err)
    (hdl : ctx.timestamp ≤ b.deadline)
    (hnonce : s.usedNonces b.nonce = false)
    (hallowed : s.allowedCallers
      (ctx.recover (toEthSignedMessageHash (getBatchHash b.calls b.nonce b.deadline))
        b.signature) = true)
    (hpre : runCalls env w (b.calls.take i) = .ok (wi, rs))
    (hstep : stepCall env wi (b.calls.get ⟨i, hi⟩) = .error e) :
    executeBatchE ctx env w s b = .error e ∧ commitBatch ctx env w s b = (s, w) := by
  have hrun : runCalls env w b.calls = .error e :=
    runCalls_take_error env b.calls w i hi wi rs e hpre hstep
  have hd : ¬ ctx.timestamp > b.deadline := Nat.not_lt.mpr hdl
  have hexec : executeBatchE ctx env w s b = .error e := by
    unfold executeBatchE
    rw [if_neg hd]
    simp only [hnonce, Bool.false_eq_true, if_false]
    have hcallers : (markNonce s b.nonce).allowedCallers
        (ctx.recover (toEthSignedMessageHash (getBatchHash b.calls b.nonce b.deadline))
          b.signature) = true := by
      rw [markNonce_allowedCallers]
      exact hallowed
    simp only [hcallers, not_true, if_false]
    rw [hrun]
  refine ⟨hexec, ?_⟩
  unfold commitBatch
  rw [hexec]

end BatchDelegator

/-- C1: for a SignedBatch passing the deadline, nonce and allowed-caller
checks, if a forwarded call in the batch fails — the low-level call
reports failure, or its non-empty return data decodes to a false
boolean — then executeBatch aborts the entire invocation, the committed
post-state is exactly the pre-state (every state change rolled back), and
the nonce remains unused afterwards. -/
theorem C1_executeBatch_atomic_abort (W : Type) (ctx : Ctx)
    (env : W → Call → Option (W × List Nat)) (w : W) (s : State) (b : SignedBatch)
    (i : Nat) (hi : i < b.calls.length) (wi : W) (rs : List (List Nat))
    (hdl : ctx.timestamp ≤ b.deadline)
    (hnonce : s.usedNonces b.nonce = false)
    (hallowed : s.allowedCallers
      (ctx.recover (toEthSignedMessageHash (getBatchHash b.calls b.nonce b.deadline))
        b.signature) = true)
    (hpre : runCalls env w (b.calls.take i) = .ok (wi, rs))
    (hfail : env wi (b.calls.get ⟨i, hi⟩) = none ∨
      ∃ wi2 ret, env wi (b.calls.get ⟨i, hi⟩) = some (wi2, ret) ∧ ret ≠ [] ∧
        decodeBool ret = some false) :
    (∃ e, executeBatchE ctx env w s b = .error e) ∧
    commitBatch ctx env w s b = (s, w) ∧
    (commitBatch ctx env w s b).1.usedNonces b.nonce = false := by
  have hstep : ∃ e, stepCall env wi (b.calls.get ⟨i, hi⟩) = .error e := by
    rcases hfail with hnone | ⟨wi2, ret, henv, hretne, hdec⟩
    · refine ⟨.CallFailed, ?_⟩
      simp only [List.get_eq_getElem] at hnone
      simp [stepCall, hnone]
    · refine ⟨.CallReturnedFalse, ?_⟩
      simp only [List.get_eq_getElem] at henv
      simp [stepCall, henv, hretne, hdec]
  obtain ⟨e, hstep⟩ := hstep
  obtain ⟨hexec, hcommit⟩ := executeBatch_abort_of_stepFail ctx env w s b i hi wi rs e
    hdl hnonce hallowed hpre hstep
  refine ⟨⟨e, hexec⟩, hcommit, ?_⟩
  rw [hcommit]
  exact hnonce

/-- Witness for C1: a concrete three-call batch whose second call fails at
the low level; the invocation errors, the committed state is the
pre-state and the nonce 1 stays unused. -/
theorem C1_witness :
    (∃ e, executeBatchE (W := Nat) ⟨0, fun _ _ => 7⟩
        (fun w c => if c.target = 99 then none else some (w + 1, []))
        0 ⟨5, fun _ => true, fun _ => false, true⟩
        ⟨[⟨1, 0, []⟩, ⟨99, 0, []⟩, ⟨2, 0, []⟩], 1, 3, []⟩ = .error e) ∧
    commitBatch (W := Nat) ⟨0, fun _ _ => 7⟩
        (fun w c => if c.target = 99 then none else some (w + 1, []))
        0 ⟨5, fun _ => true, fun _ => false, true⟩
        ⟨[⟨1, 0, []⟩, ⟨99, 0, []⟩, ⟨2, 0, []⟩], 1, 3, []⟩
      = (⟨5, fun _ => true, fun _ => false, true⟩, 0) ∧
    (commitBatch (W := Nat) ⟨0, fun _ _ => 7⟩
        (fun w c => if c.target = 99 then none else some (w + 1, []))
        0 ⟨5, fun _ => true, fun _ => false, true⟩
        ⟨[⟨1, 0, []⟩, ⟨99, 0, []⟩, ⟨2, 0, []⟩], 1, 3, []⟩).1.usedNonces 1 = false :=
  C1_executeBatch_atomic_abort Nat ⟨0, fun _ _ => 7⟩
    (fun w c => if c.target = 99 then none else some (w + 1, []))
    0 ⟨5, fun _ => true, fun _ => false, true⟩
    ⟨[⟨1, 0, []⟩, ⟨99, 0, []⟩, ⟨2, 0, []⟩], 1, 3, []⟩
    1 (by decide) 1 [[]]
    (by decide) rfl rfl (by simp [BatchDelegator.runCalls, BatchDelegator.stepCall])
    (Or.inl rfl)

/-- C9: in executeBatch, a forwarded call whose low-level invocation
succeeds with non-empty return data has that data ABI-decoded as a
single boolean — succeeding only when it decodes to true, reverting with
the `call returned false` require when it decodes to false, and
reverting with the decode revert when the data is not a valid ABI
encoding of a boolean at all (for example a uint256 result other than 0
or 1); in both reverting cases the whole batch aborts and the committed
state is the pre-state. -/
theorem C9_nonempty_return_data_must_decode_true (W : Type) (ctx : Ctx)
    (env : W → Call → Option (W × List Nat)) (w : W) (s : State) (b : SignedBatch)
    (i : Nat) (hi : i < b.calls.length) (wi : W) (rs : List (List Nat))
    (wi2 : W) (ret : List Nat)
    (hdl : ctx.timestamp ≤ b.deadline)
    (hnonce : s.usedNonces b.nonce = false)
    (hallowed : s.allowedCallers
      (ctx.recover (toEthSignedMessageHash (getBatchHash b.calls b.nonce b.deadline))
        b.signature) = true)
    (hpre : runCalls env w (b.calls.take i) = .ok (wi, rs))
    (henv : env wi (b.calls.get ⟨i, hi⟩) = some (wi2, ret))
    (hretne : ret ≠ []) :
    stepCall env wi (b.calls.get ⟨i, hi⟩)
      = (match decodeBool ret with
        | none => .error .DecodeRevert
        | some false => .error .CallReturnedFalse
        | some true => .ok (wi2, ret)) ∧
    (decodeBool ret ≠ some true →
      (∃ e, executeBatchE ctx env w s b = .error e) ∧
      commitBatch ctx env w s b = (s, w)) := by
  have hlen : ¬ ret.length = 0 := by
    simpa [List.length_eq_zero] using hretne
  have hstepchar : stepCall env wi (b.calls.get ⟨i, hi⟩)
      = (match decodeBool ret with
        | none => .error .DecodeRevert
        | some false => .error .CallReturnedFalse
        | some true => .ok (wi2, ret)) := by
    unfold stepCall
    simp only [List.get_eq_getElem] at henv
    rw [List.get_eq_getElem, henv]
    simp only [hlen, if_false]
  refine ⟨hstepchar, ?_⟩
  intro hnottrue
  have hstep : ∃ e, stepCall env wi (b.calls.get ⟨i, hi⟩) = .error e := by
    rw [hstepchar]
    rcases hdec : decodeBool ret with _ | bv
    · exact ⟨.DecodeRevert, rfl⟩
    · cases bv
      · exact ⟨.CallReturnedFalse, rfl⟩
      · exact absurd hdec hnottrue
  obtain ⟨e, hstep⟩ := hstep
  obtain ⟨hexec, hcommit⟩ := executeBatch_abort_of_stepFail ctx env w s b i hi wi rs e
    hdl hnonce hallowed hpre hstep
  exact ⟨⟨e, hexec⟩, hcommit⟩

/-- Witness for C9: the second call of a concrete batch succeeds but
returns the 32-byte ABI word for the uint256 value 5 — not a valid
boolean encoding — so the step raises the decode revert and the batch
commits no state change. -/
theorem C9_witness :
    stepCall (W := Nat)
      (fun w c => if c.target = 99 then some (w, List.replicate 31 0 ++ [5])
        else some (w + 1, []))
      1 (⟨99, 0, []⟩ : Call)
      = .error .DecodeRevert ∧
    ((∃ e, executeBatchE (W := Nat) ⟨0, fun _ _ => 7⟩
        (fun w c => if c.target = 99 then some (w, List.replicate 31 0 ++ [5])
          else some (w + 1, []))
        0 ⟨5, fun _ => true, fun _ => false, true⟩
        ⟨[⟨1, 0, []⟩, ⟨99, 0, []⟩, ⟨2, 0, []⟩], 1, 3, []⟩ = .error e) ∧
      commitBatch (W := Nat) ⟨0, fun _ _ => 7⟩
        (fun w c => if c.target = 99 then some (w, List.replicate 31 0 ++ [5])
          else some (w + 1, []))
        0 ⟨5, fun _ => true, fun _ => false, true⟩
        ⟨[⟨1, 0, []⟩, ⟨99, 0, []⟩, ⟨2, 0, []⟩], 1, 3, []⟩
        = (⟨5, fun _ => true, fun _ => false, true⟩, 0)) := by
  have h := C9_nonempty_return_data_must_decode_true Nat ⟨0, fun _ _ => 7⟩
    (fun w c => if c.target = 99 then some (w, List.replicate 31 0 ++ [5])
      else some (w + 1, []))
    0 ⟨5, fun _ => true, fun _ => false, true⟩
    ⟨[⟨1, 0, []⟩, ⟨99, 0, []⟩, ⟨2, 0, []⟩], 1, 3, []⟩
    1 (by decide) 1 [[]] 1 (List.replicate 31 0 ++ [5])
    (by decide) rfl rfl (by simp [BatchDelegator.runCalls, BatchDelegator.stepCall])
    (by decide) (by decide)
  refine ⟨?_, h.2 (by decide)⟩
  have h1 := h.1
  rw [show decodeBool (List.replicate 31 0 ++ [5]) = none from by decide] at h1
  simpa using h1

namespace BatchDelegator

theorem setAdminE_invalid_of_wrong_signer (ctx : Ctx) (s : State) (c : SignedAdminChange)
    (hdl : ctx.timestamp ≤ c.deadline)
    (hnonce : s.usedNonces c.nonce = false)
    (hne : ctx.recover
      (toEthSignedMessageHash (getAdminChangeHash c.newAdmin c.nonce c.deadline))
      c.signature ≠ s.admin) :
    setAdminE ctx s c = .error .InvalidSignature := by
  unfold setAdminE
  rw [if_neg (Nat.not_lt.mpr hdl)]
  simp only [hnonce, Bool.false_eq_true, if_false]
  rw [markNonce_admin, if_pos hne]

theorem setAdminE_ok_of_admin_signer (ctx : Ctx) (s : State) (c : SignedAdminChange)
    (hdl : ctx.timestamp ≤ c.deadline)
    (hnonce : s.usedNonces c.nonce = false)
    (heq : ctx.recover
      (toEthSignedMessageHash (getAdminChangeHash c.newAdmin c.nonce c.deadline))
      c.signature = s.admin) :
    setAdminE ctx s c = .ok { markNonce s c.nonce with admin := c.newAdmin } := by
  unfold setAdminE
  rw [if_neg (Nat.not_lt.mpr hdl)]
  simp only [hnonce, Bool.false_eq_true, if_false]
  rw [markNonce_admin, if_neg (by simp [heq])]

theorem updateCallersE_invalid_of_wrong_signer (ctx : Ctx) (s : State) (u : SignedCallerUpdate)
    (hlen : u.callers.length = u.isAdding.length)
    (hdl : ctx.timestamp ≤ u.deadline)
    (hnonce : s.usedNonces u.nonce = false)
    (hne : ctx.recover
      (toEthSignedMessageHash (getCallerUpdateHash u.callers u.isAdding u.nonce u.deadline))
      u.signature ≠ s.admin) :
    updateCallersE ctx s u = .error .InvalidSignature := by
  unfold updateCallersE
  rw [if_neg (by simp [hlen]), if_neg (Nat.not_lt.mpr hdl)]
  simp only [hnonce, Bool.false_eq_true, if_false]
  rw [markNonce_admin, if_pos hne]

theorem updateCallersE_ok_of_admin_signer (ctx : Ctx) (s : State) (u : SignedCallerUpdate)
    (hlen : u.callers.length = u.isAdding.length)
    (hdl : ctx.timestamp ≤ u.deadline)
    (hnonce : s.usedNonces u.nonce = false)
    (heq : ctx.recover
      (toEthSignedMessageHash (getCallerUpdateHash u.callers u.isAdding u.nonce u.deadline))
      u.signature = s.admin) :
    updateCallersE ctx s u
      = .ok (applyCallerUpdates (markNonce s u.nonce) (u.callers.zip u.isAdding)) := by
  unfold updateCallersE
  rw [if_neg (by simp [hlen]), if_neg (Nat.not_lt.mpr hdl)]
  simp only [hnonce, Bool.false_eq_true, if_false]
  rw [markNonce_admin, if_neg (by simp [heq])]

theorem executeBatchE_notAllowed {W : Type} (ctx : Ctx)
    (env : W → Call → Option (W × List Nat)) (w : W) (s : State) (b : SignedBatch)
    (hdl : ctx.timestamp ≤ b.deadline)
    (hnonce : s.usedNonces b.nonce = false)
    (hnot : s.allowedCallers
      (ctx.recover (toEthSignedMessageHash (getBatchHash b.calls b.nonce b.deadline))
        b.signature) = false) :
    executeBatchE ctx env w s b = .error .NotAllowedCaller := by
  unfold executeBatchE
  rw [if_neg (Nat.not_lt.mpr hdl)]
  simp only [hnonce, Bool.false_eq_true, if_false]
  rw [if_pos (by rw [markNonce_allowedCallers, hnot]; simp)]

theorem executeBatchE_ok_of_allowed {W : Type} (ctx : Ctx)
    (env : W → Call → Option (W × List Nat)) (w : W) (s : State) (b : SignedBatch)
    (w2 : W) (rs : List (List Nat))
    (hdl : ctx.timestamp ≤ b.deadline)
    (hnonce : s.usedNonces b.nonce = false)
    (hallowed : s.allowedCallers
      (ctx.recover (toEthSignedMessageHash (getBatchHash b.calls b.nonce b.deadline))
        b.signature) = true)
    (hrun : runCalls env w b.calls = .ok (w2, rs)) :
    executeBatchE ctx env w s b = .ok (markNonce s b.nonce, w2, rs) := by
  unfold executeBatchE
  rw [if_neg (Nat.not_lt.mpr hdl)]
  simp only [hnonce, Bool.false_eq_true, if_false]
  rw [if_neg (by rw [markNonce_allowedCallers, hallowed]; simp), hrun]

end BatchDelegator

/-- C6: for a SignedAdminChange passing the deadline and nonce checks,
setAdmin fails with InvalidSignature when the recovered signer is any
address other than the current admin; when the recovered signer is the
current admin it succeeds and sets admin to newAdmin, and afterwards
setAdmin and updateCallers (passing their own deadline/nonce checks)
fail with InvalidSignature exactly when their signer is not the new
admin, and succeed when it is. -/
theorem C6_admin_rotation (ctx : Ctx) (s : State) (c : SignedAdminChange)
    (hdl : ctx.timestamp ≤ c.deadline)
    (hnonce : s.usedNonces c.nonce = false) :
    (ctx.recover (toEthSignedMessageHash (getAdminChangeHash c.newAdmin c.nonce c.deadline))
        c.signature ≠ s.admin →
      setAdminE ctx s c = .error .InvalidSignature) ∧
    (ctx.recover (toEthSignedMessageHash (getAdminChangeHash c.newAdmin c.nonce c.deadline))
        c.signature = s.admin →
      ∃ s1, setAdminE ctx s c = .ok s1 ∧ s1.admin = c.newAdmin ∧
        (∀ (ctx2 : Ctx) (c2 : SignedAdminChange),
          ctx2.timestamp ≤ c2.deadline → s1.usedNonces c2.nonce = false →
          (ctx2.recover
              (toEthSignedMessageHash (getAdminChangeHash c2.newAdmin c2.nonce c2.deadline))
              c2.signature ≠ c.newAdmin →
            setAdminE ctx2 s1 c2 = .error .InvalidSignature) ∧
          (ctx2.recover
              (toEthSignedMessageHash (getAdminChangeHash c2.newAdmin c2.nonce c2.deadline))
              c2.signature = c.newAdmin →
            ∃ s2, setAdminE ctx2 s1 c2 = .ok s2)) ∧
        (∀ (ctx2 : Ctx) (u : SignedCallerUpdate),
          u.callers.length = u.isAdding.length →
          ctx2.timestamp ≤ u.deadline → s1.usedNonces u.nonce = false →
          (ctx2.recover
              (toEthSignedMessageHash
                (getCallerUpdateHash u.callers u.isAdding u.nonce u.deadline))
              u.signature ≠ c.newAdmin →
            updateCallersE ctx2 s1 u = .error .InvalidSignature) ∧
          (ctx2.recover
              (toEthSignedMessageHash
                (getCallerUpdateHash u.callers u.isAdding u.nonce u.deadline))
              u.signature = c.newAdmin →
            ∃ s2, updateCallersE ctx2 s1 u = .ok s2))) := by
  constructor
  · intro hne
    exact setAdminE_invalid_of_wrong_signer ctx s c hdl hnonce hne
  · intro heq
    refine ⟨{ markNonce s c.nonce with admin := c.newAdmin },
      setAdminE_ok_of_admin_signer ctx s c hdl hnonce heq, rfl, ?_, ?_⟩
    · intro ctx2 c2 hdl2 hn2
      constructor
      · intro hne2
        exact setAdminE_invalid_of_wrong_signer ctx2 _ c2 hdl2 hn2 hne2
      · intro heq2
        exact ⟨_, setAdminE_ok_of_admin_signer ctx2 _ c2 hdl2 hn2 heq2⟩
    · intro ctx2 u hlen2 hdl2 hn2
      constructor
      · intro hne2
        exact updateCallersE_invalid_of_wrong_signer ctx2 _ u hlen2 hdl2 hn2 hne2
      · intro heq2
        exact ⟨_, updateCallersE_ok_of_admin_signer ctx2 _ u hlen2 hdl2 hn2 heq2⟩

/-- Witness for C6: admin 5, a change signed so that recovery yields 5;
the instantiated rotation property holds at concrete inputs. -/
theorem C6_witness :
    ∃ s1, setAdminE ⟨0, fun _ sig => if sig = [1] then 5 else 7⟩
        ⟨5, fun _ => false, fun _ => false, true⟩ ⟨9, 1, 10, [1]⟩ = .ok s1 ∧
      s1.admin = 9 ∧
      (∀ (ctx2 : Ctx) (c2 : SignedAdminChange),
        ctx2.timestamp ≤ c2.deadline → s1.usedNonces c2.nonce = false →
        (ctx2.recover
            (toEthSignedMessageHash (getAdminChangeHash c2.newAdmin c2.nonce c2.deadline))
            c2.signature ≠ 9 →
          setAdminE ctx2 s1 c2 = .error .InvalidSignature) ∧
        (ctx2.recover
            (toEthSignedMessageHash (getAdminChangeHash c2.newAdmin c2.nonce c2.deadline))
            c2.signature = 9 →
          ∃ s2, setAdminE ctx2 s1 c2 = .ok s2)) ∧
      (∀ (ctx2 : Ctx) (u : SignedCallerUpdate),
        u.callers.length = u.isAdding.length →
        ctx2.timestamp ≤ u.deadline → s1.usedNonces u.nonce = false →
        (ctx2.recover
            (toEthSignedMessageHash
              (getCallerUpdateHash u.callers u.isAdding u.nonce u.deadline))
            u.signature ≠ 9 →
          updateCallersE ctx2 s1 u = .error .InvalidSignature) ∧
        (ctx2.recover
            (toEthSignedMessageHash
              (getCallerUpdateHash u.callers u.isAdding u.nonce u.deadline))
            u.signature = 9 →
          ∃ s2, updateCallersE ctx2 s1 u = .ok s2)) :=
  (C6_admin_rotation ⟨0, fun _ sig => if sig = [1] then 5 else 7⟩
    ⟨5, fun _ => false, fun _ => false, true⟩ ⟨9, 1, 10, [1]⟩
    (by decide) rfl).2 rfl

/-- C3: a batch whose recovered signer is not in allowedCallers fails
with NotAllowedCaller (deadline and nonce checks passing); after an
updateCallers correctly signed by the admin adds that signer, the
identical batch under a fresh nonce succeeds. -/
theorem C3_allowlist_gating (W : Type) (ctx1 : Ctx)
    (env : W → Call → Option (W × List Nat)) (w : W) (s : State) (b1 : SignedBatch)
    (a : Address)
    (ha : ctx1.recover
      (toEthSignedMessageHash (getBatchHash b1.calls b1.nonce b1.deadline))
      b1.signature = a)
    (hdl1 : ctx1.timestamp ≤ b1.deadline)
    (hn1 : s.usedNonces b1.nonce = false)
    (hnota : s.allowedCallers a = false) :
    executeBatchE ctx1 env w s b1 = .error .NotAllowedCaller ∧
    (∀ (ctx2 : Ctx) (u : SignedCallerUpdate),
      u.callers = [a] → u.isAdding = [true] →
      ctx2.timestamp ≤ u.deadline → s.usedNonces u.nonce = false →
      ctx2.recover
        (toEthSignedMessageHash
          (getCallerUpdateHash u.callers u.isAdding u.nonce u.deadline))
        u.signature = s.admin →
      ∃ s1, updateCallersE ctx2 s u = .ok s1 ∧ s1.allowedCallers a = true ∧
        (∀ (ctx3 : Ctx) (b2 : SignedBatch) (w2 w3 : W) (rs : List (List Nat)),
          b2.calls = b1.calls →
          ctx3.timestamp ≤ b2.deadline → s1.usedNonces b2.nonce = false →
          ctx3.recover
            (toEthSignedMessageHash (getBatchHash b2.calls b2.nonce b2.deadline))
            b2.signature = a →
          runCalls env w2 b2.calls = .ok (w3, rs) →
          executeBatchE ctx3 env w2 s1 b2 = .ok (markNonce s1 b2.nonce, w3, rs))) := by
  constructor
  · exact executeBatchE_notAllowed ctx1 env w s b1 hdl1 hn1 (by rw [ha]; exact hnota)
  · intro ctx2 u hc hu hdl2 hn2 hsig
    have hlen : u.callers.length = u.isAdding.length := by rw [hc, hu]; rfl
    refine ⟨applyCallerUpdates (markNonce s u.nonce) (u.callers.zip u.isAdding),
      updateCallersE_ok_of_admin_signer ctx2 s u hlen hdl2 hn2 hsig, ?_, ?_⟩
    · rw [hc, hu]
      simp [applyCallerUpdates, setCaller, markNonce]
    · intro ctx3 b2 w2 w3 rs hcalls hdl3 hn3 hsig3 hrun
      refine executeBatchE_ok_of_allowed ctx3 env w2 _ b2 w3 rs hdl3 hn3 ?_ hrun
      rw [hsig3, hc, hu]
      simp [applyCallerUpdates, setCaller, markNonce]

/-- Witness for C3: recover maps everything to 7, which is not allowed in
the initial state, so the batch fails; a caller update signed relative to
admin 5 adds 7 and the identical batch under the fresh nonce succeeds. -/
theorem C3_witness :
    executeBatchE (W := Nat) ⟨0, fun _ _ => 7⟩ (fun w _ => some (w + 1, [])) 0
        ⟨5, fun _ => false, fun _ => false, true⟩ ⟨[⟨1, 0, []⟩], 1, 10, []⟩
      = .error .NotAllowedCaller ∧
    (∃ s1, updateCallersE ⟨0, fun _ _ => 5⟩ ⟨5, fun _ => false, fun _ => false, true⟩
          ⟨[7], [true], 2, 10, []⟩ = .ok s1 ∧ s1.allowedCallers 7 = true ∧
      (∀ (ctx3 : Ctx) (b2 : SignedBatch) (w2 w3 : Nat) (rs : List (List Nat)),
        b2.calls = [⟨1, 0, []⟩] →
        ctx3.timestamp ≤ b2.deadline → s1.usedNonces b2.nonce = false →
        ctx3.recover
          (toEthSignedMessageHash (getBatchHash b2.calls b2.nonce b2.deadline))
          b2.signature = 7 →
        runCalls (fun w _ => some (w + 1, [])) w2 b2.calls = .ok (w3, rs) →
        executeBatchE ctx3 (fun w _ => some (w + 1, [])) w2 s1 b2
          = .ok (markNonce s1 b2.nonce, w3, rs))) := by
  have h := C3_allowlist_gating Nat ⟨0, fun _ _ => 7⟩ (fun w _ => some (w + 1, [])) 0
    ⟨5, fun _ => false, fun _ => false, true⟩ ⟨[⟨1, 0, []⟩], 1, 10, []⟩ 7 rfl
    (by decide) rfl rfl
  exact ⟨h.1, h.2 ⟨0, fun _ _ => 5⟩ ⟨[7], [true], 2, 10, []⟩ rfl rfl (by decide) rfl rfl⟩

/-- C2 as stated is false on the code: a first invocation that fails
AFTER nonce-marking reverts, rolling the marking back, so a second
invocation presenting the same nonce does not fail with NonceAlreadyUsed.
Concretely: a setAdmin whose signature recovers to 7 (not the admin 5)
reverts with InvalidSignature after marking nonce 1; a second setAdmin
with the same nonce 1 and a correct signature then returns ok rather
than NonceAlreadyUsed. -/
theorem C2_counterexample :
    setAdminE ⟨0, fun _ sig => if sig = [1] then 5 else 7⟩
        ⟨5, fun _ => false, fun _ => false, true⟩ ⟨9, 1, 10, [0]⟩
      = .error .InvalidSignature ∧
    commitOp (W := Nat) ⟨0, fun _ sig => if sig = [1] then 5 else 7⟩
        (fun w _ => some (w, []))
        (⟨5, fun _ => false, fun _ => false, true⟩, 0) (.setAdminOp ⟨9, 1, 10, [0]⟩)
      = (⟨5, fun _ => false, fun _ => false, true⟩, 0) ∧
    setAdminE ⟨0, fun _ sig => if sig = [1] then 5 else 7⟩
        ⟨5, fun _ => false, fun _ => false, true⟩ ⟨9, 1, 10, [1]⟩
      ≠ .error .NonceAlreadyUsed := by
  refine ⟨rfl, rfl, ?_⟩
  intro h
  rw [show setAdminE ⟨0, fun _ sig => if sig = [1] then 5 else 7⟩
      ⟨5, fun _ => false, fun _ => false, true⟩ ⟨9, 1, 10, [1]⟩
    = Except.ok ⟨9, fun _ => false, fun m => if m = 1 then true else false, true⟩
    from rfl] at h
  exact Except.noConfusion h

/-- C2 (amended): for a fixed executor, when a first invocation of
executeBatch, setAdmin or updateCallers presenting nonce n SUCCEEDS, any
second invocation of any of the three presenting the same nonce fails
with NonceAlreadyUsed — provided the second passes the checks its code
performs before the nonce check (its deadline, and for updateCallers the
array-length check) — regardless of payload differences. -/
theorem C2_amended_nonce_single_use (W : Type) (ctx1 ctx2 : Ctx)
    (env : W → Call → Option (W × List Nat)) (sw sw2 : State × W)
    (op1 op2 : Op) (n : Nat)
    (h1 : op1.nonceOf = some n) (h2 : op2.nonceOf = some n)
    (hok : execOp ctx1 env sw op1 = .ok sw2)
    (hpre : preNonceOk ctx2 op2) :
    execOp ctx2 env sw2 op2 = .error .NonceAlreadyUsed :=
  execOp_used_rejects ctx2 env sw2 op2 n h2
    (execOp_ok_marks ctx1 env sw sw2 op1 n hok h1) hpre

/-- Witness for the amended C2: a successful setAdmin with nonce 1, then
an executeBatch presenting nonce 1 with a valid deadline fails with
NonceAlreadyUsed. -/
theorem C2_amended_witness :
    execOp (W := Nat) ⟨0, fun _ sig => if sig = [1] then 5 else 7⟩
        (fun w _ => some (w, []))
        (⟨9, fun _ => false, fun m => if m = 1 then true else false, true⟩, 0)
        (.executeBatchOp ⟨[], 1, 10, []⟩)
      = .error .NonceAlreadyUsed :=
  C2_amended_nonce_single_use Nat ⟨0, fun _ sig => if sig = [1] then 5 else 7⟩
    ⟨0, fun _ sig => if sig = [1] then 5 else 7⟩ (fun w _ => some (w, []))
    (⟨5, fun _ => false, fun _ => false, true⟩, 0)
    (⟨9, fun _ => false, fun m => if m = 1 then true else false, true⟩, 0)
    (.setAdminOp ⟨9, 1, 10, [1]⟩) (.executeBatchOp ⟨[], 1, 10, []⟩) 1
    rfl rfl rfl (Nat.zero_le 10)

/-- C7: from the uninitialized deployment state the first initialize
succeeds with no authorization check, setting admin to the given address
and marking the contract initialized while touching nothing else; on an
initialized state initialize fails with AlreadyInitialized for any
argument and the committed state (hence admin) is unchanged; and after
any sequence of committed invocations the contract stays initialized,
so every later initialize fails with AlreadyInitialized. -/
theorem C7_initialize_exactly_once :
    (∀ (s : State) (a : Address), s.initialized = false →
      ∃ s2, initAdmin s a = .ok s2 ∧ s2.admin = a ∧ s2.initialized = true ∧
        s2.allowedCallers = s.allowedCallers ∧ s2.usedNonces = s.usedNonces) ∧
    (∀ (s : State) (a : Address), s.initialized = true →
      initAdmin s a = .error .AlreadyInitialized) ∧
    (∀ (W : Type) (ctx : Ctx) (env : W → Call → Option (W × List Nat))
      (sw : State × W) (a : Address), sw.1.initialized = true →
      commitOp ctx env sw (.initOp a) = sw) ∧
    (∀ (W : Type) (env : W → Call → Option (W × List Nat)) (sw : State × W)
      (ops : List (Ctx × Op)) (a : Address), sw.1.initialized = true →
      initAdmin (runOps env sw ops).1 a = .error .AlreadyInitialized) := by
  have hfail : ∀ (s : State) (a : Address), s.initialized = true →
      initAdmin s a = .error .AlreadyInitialized := by
    intro s a h
    simp [initAdmin, h]
  refine ⟨?_, hfail, ?_, ?_⟩
  · intro s a h
    refine ⟨{ s with initialized := true, admin := a }, ?_, rfl, rfl, rfl, rfl⟩
    simp [initAdmin, h]
  · intro W ctx env sw a h
    unfold commitOp
    have : execOp ctx env sw (.initOp a) = .error .AlreadyInitialized := by
      simp only [execOp, hfail sw.1 a h]
    rw [this]
  · intro W env sw ops a h
    exact hfail _ a (runOps_preserves_initialized env ops sw h)

/-- Witness for C7 at concrete states: a fresh state initializes to admin
9; an initialized state rejects re-initialization, also after a sequence
of committed invocations. -/
theorem C7_witness :
    (∃ s2, initAdmin ⟨0, fun _ => false, fun _ => false, false⟩ 9 = .ok s2 ∧
      s2.admin = 9 ∧ s2.initialized = true ∧
      s2.allowedCallers = (fun _ => false) ∧ s2.usedNonces = (fun _ => false)) ∧
    initAdmin ⟨9, fun _ => false, fun _ => false, true⟩ 3 = .error .AlreadyInitialized ∧
    commitOp (W := Nat) ⟨0, fun _ _ => 7⟩ (fun w _ => some (w, []))
      (⟨9, fun _ => false, fun _ => false, true⟩, 0) (.initOp 3)
      = (⟨9, fun _ => false, fun _ => false, true⟩, 0) ∧
    initAdmin (runOps (W := Nat) (fun w _ => some (w, []))
      (⟨9, fun _ => false, fun _ => false, true⟩, 0)
      [(⟨0, fun _ _ => 9⟩, .setAdminOp ⟨4, 1, 10, []⟩)]).1 3
      = .error .AlreadyInitialized := by
  have h := C7_initialize_exactly_once
  exact ⟨h.1 ⟨0, fun _ => false, fun _ => false, false⟩ 9 rfl,
    h.2.1 ⟨9, fun _ => false, fun _ => false, true⟩ 3 rfl,
    h.2.2.1 Nat ⟨0, fun _ _ => 7⟩ (fun w _ => some (w, []))
      (⟨9, fun _ => false, fun _ => false, true⟩, 0) 3 rfl,
    h.2.2.2 Nat (fun w _ => some (w, []))
      (⟨9, fun _ => false, fun _ => false, true⟩, 0)
      [(⟨0, fun _ _ => 9⟩, .setAdminOp ⟨4, 1, 10, []⟩)] 3 rfl⟩

/-- C10: setAdmin, updateCallers and executeBatch consume nonces from the
single shared usedNonces set: a committed invocation never clears a used
nonce, a successful invocation of any of the three marks its nonce, any
of the three presented with an already-used nonce (its earlier checks
passing) fails with NonceAlreadyUsed, and the used-nonce set grows
monotonically along any sequence of committed invocations. -/
theorem C10_shared_monotone_nonce_set :
    (∀ (W : Type) (ctx : Ctx) (env : W → Call → Option (W × List Nat))
      (sw : State × W) (op : Op) (m : Nat), sw.1.usedNonces m = true →
      (commitOp ctx env sw op).1.usedNonces m = true) ∧
    (∀ (W : Type) (ctx : Ctx) (env : W → Call → Option (W × List Nat))
      (sw sw2 : State × W) (op : Op) (n : Nat),
      op.nonceOf = some n → execOp ctx env sw op = .ok sw2 →
      sw2.1.usedNonces n = true) ∧
    (∀ (W : Type) (ctx : Ctx) (env : W → Call → Option (W × List Nat))
      (sw : State × W) (op : Op) (n : Nat),
      op.nonceOf = some n → sw.1.usedNonces n = true → preNonceOk ctx op →
      execOp ctx env sw op = .error .NonceAlreadyUsed) ∧
    (∀ (W : Type) (env : W → Call → Option (W × List Nat))
      (ops : List (Ctx × Op)) (sw : State × W) (m : Nat), sw.1.usedNonces m = true →
      (runOps env sw ops).1.usedNonces m = true) :=
  ⟨fun W ctx env sw op m h => commitOp_preserves_usedNonces ctx env sw op m h,
   fun W ctx env sw sw2 op n hn hok => execOp_ok_marks ctx env sw sw2 op n hok hn,
   fun W ctx env sw op n hn hused hpre => execOp_used_rejects ctx env sw op n hn hused hpre,
   fun W env ops sw m h => runOps_preserves_usedNonces env ops sw m h⟩

/-- Witness for C10 at concrete inputs: nonce 7 stays used across a
committed executeBatch; a successful setAdmin marks its nonce 1; an
updateCallers presenting the used nonce 7 fails with NonceAlreadyUsed;
and nonce 7 is still used after a sequence of committed invocations. -/
theorem C10_witness :
    (commitOp (W := Nat) ⟨0, fun _ _ => 7⟩ (fun w _ => some (w, []))
      (⟨5, fun _ => false, fun m => if m = 7 then true else false, true⟩, 0)
      (.executeBatchOp ⟨[], 2, 10, []⟩)).1.usedNonces 7 = true ∧
    ((⟨9, fun _ => false, fun m => if m = 1 then true else false, true⟩,
        (0 : Nat)) : State × Nat).1.usedNonces 1 = true ∧
    execOp (W := Nat) ⟨0, fun _ _ => 7⟩ (fun w _ => some (w, []))
      (⟨5, fun _ => false, fun m => if m = 7 then true else false, true⟩, 0)
      (.updateCallersOp ⟨[3], [true], 7, 10, []⟩) = .error .NonceAlreadyUsed ∧
    (runOps (W := Nat) (fun w _ => some (w, []))
      (⟨5, fun _ => false, fun m => if m = 7 then true else false, true⟩, 0)
      [(⟨0, fun _ _ => 5⟩, .setAdminOp ⟨4, 1, 10, []⟩)]).1.usedNonces 7 = true := by
  have h := C10_shared_monotone_nonce_set
  refine ⟨h.1 Nat ⟨0, fun _ _ => 7⟩ (fun w _ => some (w, []))
      (⟨5, fun _ => false, fun m => if m = 7 then true else false, true⟩, 0)
      (.executeBatchOp ⟨[], 2, 10, []⟩) 7 rfl,
    h.2.1 Nat ⟨0, fun _ sig => if sig = [1] then 5 else 7⟩ (fun w _ => some (w, []))
      (⟨5, fun _ => false, fun _ => false, true⟩, 0)
      (⟨9, fun _ => false, fun m => if m = 1 then true else false, true⟩, 0)
      (.setAdminOp ⟨9, 1, 10, [1]⟩) 1 rfl rfl,
    h.2.2.1 Nat ⟨0, fun _ _ => 7⟩ (fun w _ => some (w, []))
      (⟨5, fun _ => false, fun m => if m = 7 then true else false, true⟩, 0)
      (.updateCallersOp ⟨[3], [true], 7, 10, []⟩) 7 rfl rfl ⟨rfl, Nat.zero_le 10⟩,
    h.2.2.2 Nat (fun w _ => some (w, []))
      [(⟨0, fun _ _ => 5⟩, .setAdminOp ⟨4, 1, 10, []⟩)]
      (⟨5, fun _ => false, fun m => if m = 7 then true else false, true⟩, 0) 7 rfl⟩
